import Mathlib

/-!
Verification development for the `mkdocs-mediacompressor` plugin
(`src/plugin_mediacompressor/plugin.py`).

The per-file processing pipeline, the cache store, the configuration
snapshot and the resize arithmetic are embedded shallowly below.  Python
dicts keyed by hash strings are modelled as association lists, the
filesystem is modelled by an existence predicate on filenames, Python
float arithmetic in the resize computation is modelled by exact rationals,
and the two opaque external collaborators (the hashlib SHA-256 accumulator
and the ffmpeg transcoder) are modelled abstractly: the accumulator as the
byte stream it has absorbed, the transcoder by the success/failure bit of
its invocation.  Stateful per-file processing is embedded as a pure
function from a per-file environment (the facts the task observes: the
file suffix, its content digest, the cache lookup result, artifact
existence, backend success) to a task result paired with an event trace;
each trace entry records whether the cache lock was held when the event
occurred.
-/

namespace MediaCompressor

/-- `IMAGE_EXTENSIONS` from plugin.py line 13. -/
def imageExtensions : List String := [".png", ".jpg", ".jpeg", ".gif", ".webp", ".bmp"]

/-- `VIDEO_EXTENSIONS` from plugin.py line 14. -/
def videoExtensions : List String := [".mp4", ".webm", ".ogg", ".mov", ".avi", ".mkv"]

/-- Python `str.lower()` restricted to ASCII, which is all the extension
strings need (plugin.py line 315 `media_file.suffix.lower()`). -/
def lowerStr (s : String) : String := String.mk (s.data.map Char.toLower)

/-- The plugin's `config_scheme` (plugin.py lines 22-33): the ten options,
with `None`-able integers as `Option Int`. -/
structure Config where
  cacheDir : String
  imageQuality : Int
  imageMaxWidth : Option Int
  imageMaxHeight : Option Int
  videoCrf : Int
  videoPreset : String
  videoMaxWidth : Option Int
  skipImages : Bool
  skipVideos : Bool
  maxWorkers : Int
deriving DecidableEq, Repr

/-- The eight settings returned by `_get_current_config` (plugin.py lines
149-160): the projection of the options that affect compressed output
(`cache_dir` and `max_workers` are not part of the snapshot). -/
structure ConfigSnapshot where
  imageQuality : Int
  imageMaxWidth : Option Int
  imageMaxHeight : Option Int
  videoCrf : Int
  videoPreset : String
  videoMaxWidth : Option Int
  skipImages : Bool
  skipVideos : Bool
deriving DecidableEq, Repr

/-- `_get_current_config` (plugin.py lines 149-160). -/
def getCurrentConfig (c : Config) : ConfigSnapshot :=
  ⟨c.imageQuality, c.imageMaxWidth, c.imageMaxHeight, c.videoCrf,
   c.videoPreset, c.videoMaxWidth, c.skipImages, c.skipVideos⟩

/-- One value of the cache mapping: the dict
`{'cached_filename': ..., 'original_hash': ...}` built at plugin.py
lines 348-351. -/
structure CacheEntry where
  cachedFilename : String
  originalHash : String
deriving DecidableEq, Repr

/-- The in-memory cache `self.cache`: a dict from content-hash hex string
to entry, modelled as an association list whose key list is nodup for any
cache a run can build. -/
abbrev CacheMap := List (String × CacheEntry)

/-- The persisted record written by `_save_cache` (plugin.py lines
137-147): `{ "config": snapshot, "files": entries }`.  The `files` field
is optional because `_load_cache` reads it with `.get("files", {})`. -/
structure CacheRecord where
  config : ConfigSnapshot
  files : Option CacheMap
deriving DecidableEq

/-- What `_load_cache` (plugin.py lines 102-135) can find on disk:
no cache file, an unparseable/unreadable file (the `except` branch), a
parsed JSON value that is not a dict carrying a `"config"` key (the
"old cache format" branch), or a well-formed record. -/
inductive CacheFileState where
  | absent
  | unreadable
  | oldFormat
  | parsed (record : CacheRecord)

/-- `_load_cache` (plugin.py lines 102-135), returning the entry mapping
the plugin continues with.  Total: every branch, including the malformed
ones, yields a mapping (the Python code never lets an exception escape;
the `except` branch and the old-format branch set `self.cache = {}`).
On a well-formed record the stored config is compared with the current
snapshot: a difference clears the cache, equality keeps the stored
`files` mapping as-is. -/
def loadCache (current : ConfigSnapshot) : CacheFileState → CacheMap
  | .absent => []
  | .unreadable => []
  | .oldFormat => []
  | .parsed r => if r.config ≠ current then [] else r.files.getD []

/-- The record `_save_cache` (plugin.py lines 137-147) persists. -/
def saveCacheRecord (current : ConfigSnapshot) (files : CacheMap) : CacheRecord :=
  ⟨current, some files⟩

/-- `del self.cache[k]` on the association-list model: drop every pair
with that key (for a nodup-keyed dict this is exactly the one deletion). -/
def eraseKey (k : String) (c : CacheMap) : CacheMap :=
  c.filter (fun p => p.1 ≠ k)

/-- `self.cache[file_hash] = entry` (plugin.py lines 348-351): dict
assignment, overwriting any existing entry for the same key. -/
def insertCacheEntry (k : String) (e : CacheEntry) (c : CacheMap) : CacheMap :=
  (k, e) :: eraseKey k c

/-- `_clean_orphaned_cache` (plugin.py lines 285-300): first collect the
keys whose cached artifact no longer exists, then delete each collected
key.  `fsExists` is the filesystem oracle for
`(self.cache_dir / cached_filename).exists()`.  The returned number is
the reported count `len(orphaned)` (plugin.py line 300). -/
def cleanOrphanedCache (fsExists : String → Bool) (cache : CacheMap) :
    CacheMap × Nat :=
  let orphaned := (cache.filter (fun p => !fsExists p.2.cachedFilename)).map Prod.fst
  (orphaned.foldl (fun c k => eraseKey k c) cache, orphaned.length)

/-- The successive chunks produced by `f.read(8192)` in
`_compute_file_hash` (plugin.py lines 302-308). -/
def readChunks (content : List Nat) : List (List Nat) :=
  if h : content = [] then []
  else content.take 8192 :: readChunks (content.drop 8192)
termination_by content.length
decreasing_by
  simp only [List.length_drop]
  have : content.length ≠ 0 := fun hz => h (List.length_eq_zero.mp hz)
  omega

/-- `sha256.update(chunk)`: the hashlib accumulator modelled abstractly by
the byte stream absorbed so far, so an update appends the chunk. -/
def hashUpdate (state chunk : List Nat) : List Nat := state ++ chunk

/-- `_compute_file_hash` (plugin.py lines 302-308): feed the 8192-byte
chunks of the content into the accumulator, then finalize.  `hexdigest`
is the opaque finalization (SHA-256 hex) applied to the absorbed bytes. -/
def computeFileHash (hexdigest : List Nat → String) (content : List Nat) : String :=
  hexdigest ((readChunks content).foldl hashUpdate [])

/-- Where a file write lands: an artifact inside the cache directory, or
the original media file in the site directory. -/
inductive Dest where
  | cacheDir (name : String)
  | originalFile
deriving DecidableEq, Repr

/-- Observable events of one `_process_media_file` task (plugin.py lines
310-363): hashing the source, the cache-map lookup, the artifact
existence check, file writes (`img.save` / ffmpeg output /
`shutil.copy2`), backend invocations, the cache-map insert, and the
`stat` on the replaced original. -/
inductive Ev where
  | computeHash
  | lookupCache
  | artifactCheck
  | writeFile (dest : Dest)
  | invokeImageBackend
  | invokeFfmpeg
  | insertCache (key : String) (entry : CacheEntry)
  | statOriginal
deriving DecidableEq, Repr

/-- Outcome of one submitted task as `on_post_build` observes it
(plugin.py lines 85-95): `future.result()` returned `True` or `False`,
or raised. -/
inductive TaskResult where
  | ok (processed : Bool)
  | raised
deriving DecidableEq, Repr

/-- The facts one per-file task observes about its file and environment:
the file's suffix, whether `_compute_file_hash` raises (unreadable file),
the digest it otherwise returns, the result of the cache lookup for that
digest, whether the looked-up artifact exists on disk, whether ffmpeg is
on the path, whether the invoked backend succeeds (decode+encode for
images, exit status 0 plus existing output for videos), and whether the
produced `compressed_file` still exists at the line-345 check. -/
structure FileEnv where
  suffix : String
  hashRaises : Bool
  fileHash : String
  cachedEntry : Option CacheEntry
  cachedArtifactExists : Bool
  ffmpegAvailable : Bool
  backendSuccess : Bool
  compressedExists : Bool
deriving DecidableEq, Repr

/-- `media_file.suffix.lower()` (plugin.py line 315). -/
def extOf (env : FileEnv) : String := lowerStr env.suffix

/-- `_compress_image` (plugin.py lines 404-464): on success it writes the
artifact `file_hash + suffix` into the cache directory and returns its
name; any decode/encode failure is caught inside and yields `None` with
no write outside the cache directory.  Invoked with the lock not held. -/
def compressImage (env : FileEnv) : Option String × List (Ev × Bool) :=
  let name := env.fileHash ++ env.suffix
  if env.backendSuccess then
    (some name, [(.invokeImageBackend, false), (.writeFile (.cacheDir name), false)])
  else
    (none, [(.invokeImageBackend, false)])

/-- `_compress_video` (plugin.py lines 466-517): if ffmpeg is missing the
subprocess is never started and `None` is returned; otherwise ffmpeg is
invoked writing only the cache-directory artifact, and a nonzero exit or
missing output yields `None`.  Invoked with the lock not held. -/
def compressVideo (env : FileEnv) : Option String × List (Ev × Bool) :=
  if !env.ffmpegAvailable then (none, [])
  else
    let name := env.fileHash ++ env.suffix
    if env.backendSuccess then
      (some name, [(.invokeFfmpeg, false), (.writeFile (.cacheDir name), false)])
    else
      (none, [(.invokeFfmpeg, false)])

/-- The events of the `with self.cache_lock:` block at plugin.py lines
327-335, all with the lock held: the membership lookup; if the digest is
present, the artifact existence check; if that artifact exists, the copy
of the artifact over the original (still inside the block). -/
def lockSectionTrace (env : FileEnv) : List (Ev × Bool) :=
  match env.cachedEntry with
  | some _ =>
      if env.cachedArtifactExists then
        [(.lookupCache, true), (.artifactCheck, true), (.writeFile .originalFile, true)]
      else
        [(.lookupCache, true), (.artifactCheck, true)]
  | none => [(.lookupCache, true)]

/-- The `if ext in IMAGE_EXTENSIONS ... elif ext in VIDEO_EXTENSIONS ...
else` backend dispatch at plugin.py lines 338-343. -/
def backendResult (env : FileEnv) : Option String × List (Ev × Bool) :=
  if extOf env ∈ imageExtensions then compressImage env
  else if extOf env ∈ videoExtensions then compressVideo env
  else (none, [])

/-- `_process_media_file` (plugin.py lines 310-363) as a task result plus
event trace; the Boolean on each event tells whether `self.cache_lock`
was held.  Branches in source order: the two skip-flag checks (return
`False` before any work), the hash computation (an `IOError` there
propagates out of the task), the locked hit check (a served hit copies
the artifact over the original inside the lock and returns `False`), the
backend dispatch, and on a produced-and-existing compressed file the
locked cache insert followed by the unlocked copy over the original and
the `stat`, returning `True`; a `None`/missing compressed file returns
`False`. -/
def processMediaFile (cfg : Config) (env : FileEnv) : TaskResult × List (Ev × Bool) :=
  if extOf env ∈ imageExtensions ∧ cfg.skipImages = true then (.ok false, [])
  else if extOf env ∈ videoExtensions ∧ cfg.skipVideos = true then (.ok false, [])
  else if env.hashRaises = true then (.raised, [(.computeHash, false)])
  else if env.cachedEntry.isSome = true ∧ env.cachedArtifactExists = true then
    (.ok false, (.computeHash, false) :: lockSectionTrace env)
  else
    match backendResult env with
    | (some name, bt) =>
        if env.compressedExists = true then
          (.ok true, ((.computeHash, false) :: lockSectionTrace env) ++ bt ++
            [(.insertCache env.fileHash ⟨name, env.fileHash⟩, true),
             (.writeFile .originalFile, false), (.statOriginal, false)])
        else (.ok false, ((.computeHash, false) :: lockSectionTrace env) ++ bt)
    | (none, bt) => (.ok false, ((.computeHash, false) :: lockSectionTrace env) ++ bt)

/-- The run summary printed at plugin.py line 100. -/
structure Summary where
  processed : Nat
  skipped : Nat
  errors : Nat
deriving DecidableEq, Repr

/-- The per-future counting in `on_post_build` (plugin.py lines 85-95):
a `True` result increments `processed`, a `False` result increments
`skipped`, a raised exception increments `errors`. -/
def countStep (s : Summary) : TaskResult → Summary
  | .ok true => ⟨s.processed + 1, s.skipped, s.errors⟩
  | .ok false => ⟨s.processed, s.skipped + 1, s.errors⟩
  | .raised => ⟨s.processed, s.skipped, s.errors + 1⟩

/-- The task results of one run over the discovered files, each file
processed against its own environment (tasks are independent; the
counting in `on_post_build` is order-insensitive, so the completion
order of `as_completed` is irrelevant to the summary). -/
def runResults (cfg : Config) (envs : List FileEnv) : List TaskResult :=
  envs.map (fun e => (processMediaFile cfg e).1)

/-- The aggregate counts of `on_post_build` (plugin.py lines 71-95). -/
def postBuildSummary (cfg : Config) (envs : List FileEnv) : Summary :=
  (runResults cfg envs).foldl countStep ⟨0, 0, 0⟩

/-- The file's kind is globally disabled (plugin.py lines 318-321). -/
def flagSkipped (cfg : Config) (env : FileEnv) : Prop :=
  (extOf env ∈ imageExtensions ∧ cfg.skipImages = true) ∨
  (extOf env ∈ videoExtensions ∧ cfg.skipVideos = true)

instance (cfg : Config) (env : FileEnv) : Decidable (flagSkipped cfg env) := by
  unfold flagSkipped; infer_instance

/-- The locked hit check found an entry whose artifact exists, so the
task is served from the cache (plugin.py lines 327-335). -/
def cacheHitServed (env : FileEnv) : Prop :=
  env.cachedEntry.isSome = true ∧ env.cachedArtifactExists = true

instance (env : FileEnv) : Decidable (cacheHitServed env) := by
  unfold cacheHitServed; infer_instance

/-- The task reaches the backend dispatch and the backend returns `None`:
the file is not flag-skipped, hashing succeeds, the hit check does not
serve it, and its backend fails (image decode/encode failure; ffmpeg
missing, exiting nonzero, or leaving no output). -/
def backendFailed (cfg : Config) (env : FileEnv) : Prop :=
  ¬ flagSkipped cfg env ∧ env.hashRaises = false ∧ ¬ cacheHitServed env ∧
    ((extOf env ∈ imageExtensions ∧ env.backendSuccess = false) ∨
     (extOf env ∉ imageExtensions ∧ extOf env ∈ videoExtensions ∧
       (env.ffmpegAvailable = false ∨ env.backendSuccess = false)))

instance (cfg : Config) (env : FileEnv) : Decidable (backendFailed cfg env) := by
  unfold backendFailed; infer_instance

/-- Python `int()` on a rational: truncation toward zero. -/
def pyInt (q : ℚ) : Int := if q < 0 then -(Int.floor (-q)) else Int.floor q

/-- One bound check of the scale computation (plugin.py lines 428-431):
`if bound is not None and dim > bound: scale = min(scale, bound / dim)`.
Exact rationals stand in for Python floats. -/
def scaleStep (bound : Option Int) (dim : Nat) (s : ℚ) : ℚ :=
  match bound with
  | some b => if (dim : Int) > b then min s ((b : ℚ) / (dim : ℚ)) else s
  | none => s

/-- The scale computation of `_compress_image` (plugin.py lines 425-431):
`scale = 1.0`, lowered by the width bound check, then by the height
bound check. -/
def resizeScale (maxWidth maxHeight : Option Int) (width height : Nat) : ℚ :=
  scaleStep maxHeight height (scaleStep maxWidth width 1)

/-- The output dimensions of the resize block (plugin.py lines 424-436):
when a bound is configured and the computed scale is below one, the new
size is `(int(width * scale), int(height * scale))`; otherwise the image
keeps its dimensions. -/
def resizeDims (maxWidth maxHeight : Option Int) (width height : Nat) : Nat × Nat :=
  if maxWidth.isSome ∨ maxHeight.isSome then
    if resizeScale maxWidth maxHeight width height < 1 then
      ((pyInt ((width : ℚ) * resizeScale maxWidth maxHeight width height)).toNat,
       (pyInt ((height : ℚ) * resizeScale maxWidth maxHeight width height)).toNat)
    else (width, height)
  else (width, height)

/-- The scale factor in the words of the claim: the minimum of 1 and the
ratios `maxWidth / width` (when the width exceeds the bound) and
`maxHeight / height` (when the height exceeds the bound). -/
def claimScale (maxWidth maxHeight : Option Int) (width height : Nat) : ℚ :=
  min 1 (min
    (match maxWidth with
     | some w => if (width : Int) > w then (w : ℚ) / (width : ℚ) else 1
     | none => 1)
    (match maxHeight with
     | some h => if (height : Int) > h then (h : ℚ) / (height : ℚ) else 1
     | none => 1))

/-- The plugin's default configuration (plugin.py lines 22-33). -/
def cfgDefault : Config :=
  ⟨".mediacompressor_cache", 85, none, none, 23, "medium", none, false, false, 4⟩

/-- A discovered `.jpg` file that is hashed, misses the cache, and whose
image backend fails (decode/encode error caught inside
`_compress_image`). -/
def envFailImage : FileEnv :=
  ⟨".jpg", false, "d41d8cd9", none, false, true, false, false⟩

/-- A discovered `.png` file served from the cache: the lookup hits and
the cached artifact exists. -/
def envHitPng : FileEnv :=
  ⟨".png", false, "abc123", some ⟨"abc123.png", "abc123"⟩, true, true, true, true⟩

/-- The default configuration with `skip_videos` enabled. -/
def cfgSkipVideos : Config :=
  ⟨".mediacompressor_cache", 85, none, none, 23, "medium", none, false, true, 4⟩

/-- A discovered `.mp4` video file whose environment would let every
stage succeed. -/
def envVideoMp4 : FileEnv :=
  ⟨".mp4", false, "c0ffee", none, false, true, true, true⟩

/-- The well-formedness of one cache pair: the entry's stored
`original_hash` is its key and its `cached_filename` is the key followed
by the processed file's extension. -/
def entryInv (k : String) (e : CacheEntry) : Prop :=
  e.originalHash = k ∧ ∃ ext, e.cachedFilename = k ++ ext

/-! ### Supporting lemmas -/

/-- Folding the accumulator over the chunks of a content absorbs exactly
the content: the chunks concatenate back to the original byte list. -/
theorem foldl_hashUpdate_readChunks :
    ∀ (n : Nat) (l : List Nat), l.length ≤ n →
      ∀ acc : List Nat, (readChunks l).foldl hashUpdate acc = acc ++ l := by
  intro n
  induction n with
  | zero =>
      intro l hl acc
      have hnil : l = [] := List.length_eq_zero.mp (Nat.le_zero.mp hl)
      subst hnil
      rw [readChunks]
      simp
  | succ n ih =>
      intro l hl acc
      by_cases hnil : l = []
      · subst hnil
        rw [readChunks]
        simp
      · rw [readChunks]
        simp only [hnil, dite_false, List.foldl_cons]
        have hlen : (l.drop 8192).length ≤ n := by
          have := l.length_drop 8192
          omega
        rw [ih (l.drop 8192) hlen]
        simp [hashUpdate, List.append_assoc]

/-- Deleting a list of keys one by one filters out exactly the pairs
whose key occurs in that list. -/
theorem foldl_eraseKey (ks : List String) (c : CacheMap) :
    ks.foldl (fun acc k => eraseKey k acc) c
      = c.filter (fun p => !ks.contains p.1) := by
  induction ks generalizing c with
  | nil => simp
  | cons k ks ih =>
      rw [List.foldl_cons, ih]
      unfold eraseKey
      rw [List.filter_filter]
      apply List.filter_congr
      intro p _
      by_cases h : p.1 = k <;> simp [h]

/-- On a nodup-keyed cache, the two-phase collect-then-delete loop of
`_clean_orphaned_cache` keeps exactly the entries whose artifact
exists. -/
theorem cleanOrphaned_eq_filter (fsExists : String → Bool) (cache : CacheMap)
    (hnd : (cache.map Prod.fst).Nodup) :
    (cleanOrphanedCache fsExists cache).1
      = cache.filter (fun p => fsExists p.2.cachedFilename) := by
  have hinj := List.inj_on_of_nodup_map hnd
  show ((cache.filter (fun p => !fsExists p.2.cachedFilename)).map
      Prod.fst).foldl (fun c k => eraseKey k c) cache
    = cache.filter (fun p => fsExists p.2.cachedFilename)
  rw [foldl_eraseKey]
  apply List.filter_congr
  intro p hp
  by_cases hex : fsExists p.2.cachedFilename
  · simp only [hex, Bool.not_eq_true']
    have hni : p.1 ∉ (cache.filter
        (fun q => !fsExists q.2.cachedFilename)).map Prod.fst := by
      intro hmem
      rcases List.mem_map.mp hmem with ⟨q, hqf, hqkey⟩
      rcases List.mem_filter.mp hqf with ⟨hq, hqex⟩
      have hqp : q = p := hinj hq hp hqkey
      subst hqp
      rw [hex] at hqex
      simp at hqex
    simpa using hni
  · simp only [hex, Bool.not_eq_true']
    have hmem : p.1 ∈ (cache.filter
        (fun p => !fsExists p.2.cachedFilename)).map Prod.fst := by
      refine List.mem_map.mpr ⟨p, List.mem_filter.mpr ⟨hp, ?_⟩, rfl⟩
      simp [hex]
    simpa using hmem

/-- A lookup misses when no pair in the list carries the key. -/
theorem lookup_eq_none_of_keys_ne (l : CacheMap) (k : String)
    (h : ∀ p ∈ l, p.1 ≠ k) : l.lookup k = none := by
  induction l with
  | nil => rfl
  | cons a t ih =>
      rcases a with ⟨k', v⟩
      have ha : k' ≠ k := h (k', v) (List.mem_cons_self _ _)
      have hbeq : (k == k') = false := by
        rw [beq_eq_false_iff_ne]
        exact Ne.symm ha
      simp only [List.lookup, hbeq]
      exact ih (fun p hp => h p (List.mem_cons_of_mem _ hp))

/-- Filtering splits the length of a list. -/
theorem length_filter_add_length_not (l : CacheMap) (f : String × CacheEntry → Bool) :
    (l.filter (fun p => !f p)).length + (l.filter f).length = l.length := by
  induction l with
  | nil => rfl
  | cons a t ih =>
      by_cases h : f a <;> simp [List.filter_cons, h, ← ih] <;> omega

/-- Every event of the locked section is recorded with the lock held and
is the lookup, the artifact existence check, or the hit-path copy. -/
theorem mem_lockSectionTrace (env : FileEnv) (p : Ev × Bool)
    (hp : p ∈ lockSectionTrace env) :
    p.2 = true ∧ (p.1 = Ev.lookupCache ∨ p.1 = Ev.artifactCheck ∨
      p.1 = Ev.writeFile Dest.originalFile) := by
  unfold lockSectionTrace at hp
  rcases hce : env.cachedEntry with _ | e <;> rw [hce] at hp
  · simp only [List.mem_singleton] at hp
    subst hp
    exact ⟨rfl, Or.inl rfl⟩
  · rcases hae : env.cachedArtifactExists <;> rw [hae] at hp
    · rw [if_neg (by simp)] at hp
      rcases List.mem_cons.mp hp with hp | hp
      · subst hp; exact ⟨rfl, Or.inl rfl⟩
      · simp only [List.mem_singleton] at hp
        subst hp; exact ⟨rfl, Or.inr (Or.inl rfl)⟩
    · rw [if_pos rfl] at hp
      rcases List.mem_cons.mp hp with hp | hp
      · subst hp; exact ⟨rfl, Or.inl rfl⟩
      · rcases List.mem_cons.mp hp with hp | hp
        · subst hp; exact ⟨rfl, Or.inr (Or.inl rfl)⟩
        · simp only [List.mem_singleton] at hp
          subst hp; exact ⟨rfl, Or.inr (Or.inr rfl)⟩

/-- The hit-path copy appears in the locked section only when the lookup
found an entry whose artifact exists. -/
theorem writeOriginal_in_lockSection (env : FileEnv) (b : Bool)
    (hp : (Ev.writeFile Dest.originalFile, b) ∈ lockSectionTrace env) :
    cacheHitServed env := by
  unfold lockSectionTrace at hp
  rcases hce : env.cachedEntry with _ | e <;> rw [hce] at hp
  · simp at hp
  · rcases hae : env.cachedArtifactExists <;> rw [hae] at hp
    · simp at hp
    · exact ⟨by simp [hce], hae⟩

/-- Every event of the image backend happens with the lock not held and
is the backend invocation or the artifact write into the cache
directory. -/
theorem mem_compressImage (env : FileEnv) (p : Ev × Bool)
    (hp : p ∈ (compressImage env).2) :
    p.2 = false ∧ (p.1 = Ev.invokeImageBackend ∨
      p.1 = Ev.writeFile (Dest.cacheDir (env.fileHash ++ env.suffix))) := by
  unfold compressImage at hp
  rcases hbs : env.backendSuccess <;> rw [hbs] at hp <;> simp at hp
  · subst hp; simp
  · rcases hp with hp | hp <;> subst hp <;> simp

/-- Every event of the video backend happens with the lock not held, is
the ffmpeg invocation or the artifact write into the cache directory,
and occurs only when ffmpeg is on the path. -/
theorem mem_compressVideo (env : FileEnv) (p : Ev × Bool)
    (hp : p ∈ (compressVideo env).2) :
    p.2 = false ∧ env.ffmpegAvailable = true ∧ (p.1 = Ev.invokeFfmpeg ∨
      p.1 = Ev.writeFile (Dest.cacheDir (env.fileHash ++ env.suffix))) := by
  unfold compressVideo at hp
  rcases hff : env.ffmpegAvailable <;> rw [hff] at hp
  · simp at hp
  · rcases hbs : env.backendSuccess <;> rw [hbs] at hp <;> simp at hp
    · subst hp; simp
    · rcases hp with hp | hp <;> subst hp <;> simp

/-- Every event of the backend dispatch happens with the lock not held
and comes from the backend matching the file's kind. -/
theorem mem_backendResult (env : FileEnv) (p : Ev × Bool)
    (hp : p ∈ (backendResult env).2) :
    p.2 = false ∧
      ((extOf env ∈ imageExtensions ∧ (p.1 = Ev.invokeImageBackend ∨
          p.1 = Ev.writeFile (Dest.cacheDir (env.fileHash ++ env.suffix)))) ∨
       (extOf env ∉ imageExtensions ∧ extOf env ∈ videoExtensions ∧
          env.ffmpegAvailable = true ∧ (p.1 = Ev.invokeFfmpeg ∨
          p.1 = Ev.writeFile (Dest.cacheDir (env.fileHash ++ env.suffix))))) := by
  unfold backendResult at hp
  by_cases hi : extOf env ∈ imageExtensions
  · rw [if_pos hi] at hp
    obtain ⟨h2, h1⟩ := mem_compressImage env p hp
    exact ⟨h2, Or.inl ⟨hi, h1⟩⟩
  · rw [if_neg hi] at hp
    by_cases hv : extOf env ∈ videoExtensions
    · rw [if_pos hv] at hp
      obtain ⟨h2, hff, h1⟩ := mem_compressVideo env p hp
      exact ⟨h2, Or.inr ⟨hi, hv, hff, h1⟩⟩
    · rw [if_neg hv] at hp
      simp at hp

/-- Case analysis for the full trace of a task: every event is the hash
computation, part of the locked section, part of the backend dispatch,
the locked cache insert, or the unlocked copy/stat of the success
path. -/
theorem mem_processMediaFile (cfg : Config) (env : FileEnv) (p : Ev × Bool)
    (hp : p ∈ (processMediaFile cfg env).2) :
    p = (Ev.computeHash, false) ∨ p ∈ lockSectionTrace env ∨
    (p ∈ (backendResult env).2 ∧ ¬ flagSkipped cfg env) ∨
    p = (Ev.insertCache env.fileHash
          ⟨env.fileHash ++ env.suffix, env.fileHash⟩, true) ∨
    p = (Ev.writeFile Dest.originalFile, false) ∨
    p = (Ev.statOriginal, false) := by
  unfold processMediaFile at hp
  by_cases h1 : extOf env ∈ imageExtensions ∧ cfg.skipImages = true
  · rw [if_pos h1] at hp; simp at hp
  · rw [if_neg h1] at hp
    by_cases h2 : extOf env ∈ videoExtensions ∧ cfg.skipVideos = true
    · rw [if_pos h2] at hp; simp at hp
    · rw [if_neg h2] at hp
      have hns : ¬ flagSkipped cfg env := fun hc => hc.elim h1 h2
      by_cases h3 : env.hashRaises = true
      · rw [if_pos h3] at hp
        simp only [List.mem_singleton] at hp
        exact Or.inl hp
      · rw [if_neg h3] at hp
        by_cases h4 : env.cachedEntry.isSome = true ∧
            env.cachedArtifactExists = true
        · rw [if_pos h4] at hp
          rcases List.mem_cons.mp hp with hp | hp
          · exact Or.inl hp
          · exact Or.inr (Or.inl hp)
        · rw [if_neg h4] at hp
          rcases hbr : backendResult env with ⟨c, bt⟩
          rw [hbr] at hp
          have hbt : bt = (backendResult env).2 := by rw [hbr]
          rcases c with _ | name
          · simp only [] at hp
            rcases List.mem_cons.mp hp with hp | hp
            · exact Or.inl hp
            · rcases List.mem_append.mp hp with hp | hp
              · exact Or.inr (Or.inl hp)
              · exact Or.inr (Or.inr (Or.inl ⟨hbt ▸ hp, hns⟩))
          · simp only [] at hp ⊢
            by_cases h5 : env.compressedExists = true
            · rw [if_pos h5] at hp
              have hname : name = env.fileHash ++ env.suffix := by
                have := congrArg Prod.fst hbr
                unfold backendResult compressImage compressVideo at this
                by_cases hi : extOf env ∈ imageExtensions
                · rw [if_pos hi] at this
                  rcases hbs : env.backendSuccess <;> rw [hbs] at this <;>
                    simp at this
                  exact this.symm
                · rw [if_neg hi] at this
                  by_cases hv : extOf env ∈ videoExtensions
                  · rw [if_pos hv] at this
                    rcases hff : env.ffmpegAvailable <;> rw [hff] at this <;>
                      simp at this
                    rcases hbs : env.backendSuccess <;> rw [hbs] at this <;>
                      simp at this
                    exact this.symm
                  · rw [if_neg hv] at this
                    simp at this
              subst hname
              rcases List.mem_append.mp hp with hp | hp
              · rcases List.mem_append.mp hp with hp | hp
                · rcases List.mem_cons.mp hp with hp | hp
                  · exact Or.inl hp
                  · exact Or.inr (Or.inl hp)
                · exact Or.inr (Or.inr (Or.inl ⟨hbt ▸ hp, hns⟩))
              · simp only [List.mem_cons, List.mem_singleton,
                  List.not_mem_nil, or_false] at hp
                rcases hp with hp | hp | hp
                · exact Or.inr (Or.inr (Or.inr (Or.inl hp)))
                · exact Or.inr (Or.inr (Or.inr (Or.inr (Or.inl hp))))
                · exact Or.inr (Or.inr (Or.inr (Or.inr (Or.inr hp))))
            · rw [if_neg h5] at hp
              rcases List.mem_cons.mp hp with hp | hp
              · exact Or.inl hp
              · rcases List.mem_append.mp hp with hp | hp
                · exact Or.inr (Or.inl hp)
                · exact Or.inr (Or.inr (Or.inl ⟨hbt ▸ hp, hns⟩))

/-- When the task reaches the dispatch and its backend fails, the
dispatch returns `None`. -/
theorem backendResult_none_of_failed (cfg : Config) (env : FileEnv)
    (hf : backendFailed cfg env) : (backendResult env).1 = none := by
  obtain ⟨-, -, -, hfail⟩ := hf
  unfold backendResult
  rcases hfail with ⟨hi, hbs⟩ | ⟨hni, hv, hff⟩
  · rw [if_pos hi]
    unfold compressImage
    simp [hbs]
  · rw [if_neg hni, if_pos hv]
    unfold compressVideo
    rcases hff with hff | hbs
    · simp [hff]
    · rcases hffa : env.ffmpegAvailable <;> simp [hffa, hbs]

/-- A task whose backend fails returns `False` (counted as skipped) and
its trace is the hash, the locked miss check, and the failed backend's
events. -/
theorem processMediaFile_of_backendFailed (cfg : Config) (env : FileEnv)
    (hf : backendFailed cfg env) :
    processMediaFile cfg env
      = (.ok false, (Ev.computeHash, false) :: lockSectionTrace env
          ++ (backendResult env).2) := by
  have hnone := backendResult_none_of_failed cfg env hf
  obtain ⟨hs, hhash, hhit, -⟩ := hf
  have hhit' : ¬(env.cachedEntry.isSome = true ∧
      env.cachedArtifactExists = true) := hhit
  unfold processMediaFile
  rw [if_neg (fun hc => hs (Or.inl hc)), if_neg (fun hc => hs (Or.inr hc)),
    if_neg (by simp [hhash]), if_neg hhit']
  rcases hbr : backendResult env with ⟨c, bt⟩
  rw [hbr] at hnone
  simp only [] at hnone
  subst hnone
  simp [hbr]

/-- Folding the per-future counting over a result list counts each
outcome kind. -/
theorem foldl_countStep (rs : List TaskResult) :
    ∀ s : Summary, rs.foldl countStep s
      = ⟨s.processed + rs.count (.ok true), s.skipped + rs.count (.ok false),
         s.errors + rs.count .raised⟩ := by
  induction rs with
  | nil => intro s; simp [List.count_nil]
  | cons r t ih =>
      intro s
      rw [List.foldl_cons, ih]
      rcases r with b | _
      · rcases b <;> simp [countStep, List.count_cons] <;> omega
      · simp [countStep, List.count_cons] <;> omega

/- ### Claim theorems -/

/-- C9: the streaming digest of `_compute_file_hash`, which feeds the
content to the accumulator in successive 8192-byte chunks, equals the
one-shot digest of the whole byte content, for every finalization
function; repeated calls on unchanged bytes and byte-identical files
therefore agree. -/
theorem streamed_hash_eq_oneshot (hexdigest : List Nat → String)
    (content : List Nat) :
    computeFileHash hexdigest content = hexdigest content := by
  unfold computeFileHash
  rw [foldl_hashUpdate_readChunks content.length content (le_refl _) []]
  simp

/-- C2: loading a previously saved cache record under a changed snapshot
yields the empty entry mapping; loading it under the identical snapshot
yields exactly the stored entries. -/
theorem load_saved_cache (s1 s2 : ConfigSnapshot) (files : CacheMap) :
    (s2 ≠ s1 → loadCache s2 (.parsed (saveCacheRecord s1 files)) = []) ∧
    (s2 = s1 → loadCache s2 (.parsed (saveCacheRecord s1 files)) = files) := by
  constructor
  · intro hne
    simp [loadCache, saveCacheRecord, Ne.symm hne]
  · intro heq
    subst heq
    simp [loadCache, saveCacheRecord]

/-- C2 witness: a concrete saved record, loaded under a differing and
under the identical snapshot. -/
theorem load_saved_cache_witness :
    loadCache ⟨85, none, none, 23, "medium", none, false, false⟩
        (.parsed (saveCacheRecord ⟨60, none, none, 23, "medium", none, false, false⟩
          [("h1", ⟨"h1.png", "h1"⟩)])) = [] ∧
    loadCache ⟨85, none, none, 23, "medium", none, false, false⟩
        (.parsed (saveCacheRecord ⟨85, none, none, 23, "medium", none, false, false⟩
          [("h1", ⟨"h1.png", "h1"⟩)])) = [("h1", ⟨"h1.png", "h1"⟩)] :=
  ⟨(load_saved_cache ⟨60, none, none, 23, "medium", none, false, false⟩
      ⟨85, none, none, 23, "medium", none, false, false⟩
      [("h1", ⟨"h1.png", "h1"⟩)]).1 (by decide),
   (load_saved_cache ⟨85, none, none, 23, "medium", none, false, false⟩
      ⟨85, none, none, 23, "medium", none, false, false⟩
      [("h1", ⟨"h1.png", "h1"⟩)]).2 rfl⟩

/-- C6: on a nodup-keyed cache, `_clean_orphaned_cache` removes exactly
the entries whose referenced artifact does not exist — the surviving
mapping is the subsequence of entries whose artifact exists, unchanged —
its reported count is the number of entries removed (equivalently, count
plus surviving size is the original size), and the digest of every
removed entry misses on the next lookup. -/
theorem prune_orphans_spec (fsExists : String → Bool) (cache : CacheMap)
    (hnd : (cache.map Prod.fst).Nodup) :
    (cleanOrphanedCache fsExists cache).1
        = cache.filter (fun p => fsExists p.2.cachedFilename) ∧
    (cleanOrphanedCache fsExists cache).2
        = (cache.filter (fun p => !fsExists p.2.cachedFilename)).length ∧
    (cleanOrphanedCache fsExists cache).2
        + ((cleanOrphanedCache fsExists cache).1).length = cache.length ∧
    (∀ k e, (k, e) ∈ cache → fsExists e.cachedFilename = false →
        ((cleanOrphanedCache fsExists cache).1).lookup k = none) := by
  have hfil := cleanOrphaned_eq_filter fsExists cache hnd
  have hinj := List.inj_on_of_nodup_map hnd
  have hcount : (cleanOrphanedCache fsExists cache).2
      = (cache.filter (fun p => !fsExists p.2.cachedFilename)).length := by
    show ((cache.filter
        (fun p => !fsExists p.2.cachedFilename)).map Prod.fst).length = _
    rw [List.length_map]
  refine ⟨hfil, hcount, ?_, ?_⟩
  · rw [hfil, hcount]
    exact length_filter_add_length_not cache (fun p => fsExists p.2.cachedFilename)
  · intro k e hke hex
    rw [hfil]
    apply lookup_eq_none_of_keys_ne
    intro p hp hpk
    rcases List.mem_filter.mp hp with ⟨hpc, hpex⟩
    have hpe : p = (k, e) := hinj hpc hke hpk
    subst hpe
    rw [hex] at hpex
    exact Bool.false_ne_true hpex

/-- C6 witness: a two-entry cache in which exactly one artifact exists;
pruning keeps that entry, reports one removal, and the removed digest
misses on lookup. -/
theorem prune_orphans_spec_witness :
    (cleanOrphanedCache (fun s => s == "a.png")
        [("h1", ⟨"a.png", "h1"⟩), ("h2", ⟨"b.png", "h2"⟩)]).1.lookup "h2"
      = none :=
  (prune_orphans_spec (fun s => s == "a.png")
      [("h1", ⟨"a.png", "h1"⟩), ("h2", ⟨"b.png", "h2"⟩)]
      (by decide)).2.2.2 "h2" ⟨"b.png", "h2"⟩ (by decide) (by decide)

/-- C1 counterexample: a run over exactly one file, an image whose
compression backend fails.  The claim demands an error count of one for
that run; the code swallows the backend failure (`_compress_image`
returns `None`, `_process_media_file` returns `False`) and the run
summary counts the file as skipped: zero processed, one skipped, zero
errors. -/
theorem backend_failure_error_count_cex :
    backendFailed cfgDefault envFailImage ∧
    postBuildSummary cfgDefault [envFailImage] = ⟨0, 1, 0⟩ := by
  constructor
  · decide
  · decide

/-- C1 amended: a file whose compression backend fails is counted as
skipped, not as an error: its task returns `False`, and every other
file's result is exactly the result of its own task, so the rest of the
summary is unaffected — the skipped count rises by one over the same run
without the failing file while processed and error counts are
unchanged. -/
theorem backend_failure_counted_skipped (cfg : Config)
    (pre post : List FileEnv) (e : FileEnv) (hf : backendFailed cfg e) :
    runResults cfg (pre ++ e :: post)
        = runResults cfg pre ++ .ok false :: runResults cfg post ∧
    (postBuildSummary cfg (pre ++ e :: post)).skipped
        = (postBuildSummary cfg (pre ++ post)).skipped + 1 ∧
    (postBuildSummary cfg (pre ++ e :: post)).processed
        = (postBuildSummary cfg (pre ++ post)).processed ∧
    (postBuildSummary cfg (pre ++ e :: post)).errors
        = (postBuildSummary cfg (pre ++ post)).errors := by
  have he : (processMediaFile cfg e).1 = .ok false := by
    rw [processMediaFile_of_backendFailed cfg e hf]
  have hsplit : runResults cfg (pre ++ e :: post)
      = runResults cfg pre ++ .ok false :: runResults cfg post := by
    unfold runResults
    rw [List.map_append, List.map_cons, he]
  have hsplit2 : runResults cfg (pre ++ post)
      = runResults cfg pre ++ runResults cfg post := by
    unfold runResults
    rw [List.map_append]
  refine ⟨hsplit, ?_, ?_, ?_⟩ <;>
    rw [postBuildSummary, postBuildSummary, hsplit, hsplit2,
      foldl_countStep, foldl_countStep] <;>
    simp [List.count_append, List.count_cons] <;> omega

/-- C1 amended witness: the failing-image run has one more skipped file
than the empty run and the same processed and error counts. -/
theorem backend_failure_counted_skipped_witness :
    (postBuildSummary cfgDefault [envFailImage]).skipped
      = (postBuildSummary cfgDefault []).skipped + 1 :=
  (backend_failure_counted_skipped cfgDefault [] [] envFailImage
    (by decide)).2.1

/-- A copy of an artifact over the original file occurs only on the
served cache-hit path or on a task that returns `True` (processed). -/
theorem writeOriginal_mem_processMediaFile (cfg : Config) (env : FileEnv)
    (b : Bool)
    (hp : (Ev.writeFile Dest.originalFile, b) ∈ (processMediaFile cfg env).2) :
    cacheHitServed env ∨ (processMediaFile cfg env).1 = .ok true := by
  by_cases h4 : env.cachedEntry.isSome = true ∧ env.cachedArtifactExists = true
  · exact Or.inl h4
  · right
    unfold processMediaFile at hp ⊢
    by_cases h1 : extOf env ∈ imageExtensions ∧ cfg.skipImages = true
    · rw [if_pos h1] at hp; simp at hp
    · rw [if_neg h1] at hp ⊢
      by_cases h2 : extOf env ∈ videoExtensions ∧ cfg.skipVideos = true
      · rw [if_pos h2] at hp; simp at hp
      · rw [if_neg h2] at hp ⊢
        by_cases h3 : env.hashRaises = true
        · rw [if_pos h3] at hp
          simp only [List.mem_singleton] at hp
          injection hp with hp1 hp2
          simp at hp1
        · rw [if_neg h3] at hp ⊢
          rw [if_neg h4] at hp ⊢
          rcases hbr : backendResult env with ⟨c, bt⟩
          try rw [hbr] at hp
          try rw [hbr]
          have hbt : bt = (backendResult env).2 := by rw [hbr]
          have hlock : (Ev.writeFile Dest.originalFile, b)
              ∉ lockSectionTrace env := fun hmem =>
            h4 (writeOriginal_in_lockSection env b hmem)
          have hback : (Ev.writeFile Dest.originalFile, b) ∉ bt := by
            intro hmem
            obtain ⟨-, hshape⟩ :=
              mem_backendResult env _ (hbt ▸ hmem)
            rcases hshape with ⟨-, h | h⟩ | ⟨-, -, -, h | h⟩ <;> simp at h
          rcases c with _ | name
          · simp only [] at hp
            rcases List.mem_cons.mp hp with hp | hp
            · exact absurd hp (by simp)
            · rcases List.mem_append.mp hp with hp | hp
              · exact absurd hp hlock
              · exact absurd hp hback
          · simp only [] at hp ⊢
            by_cases h5 : env.compressedExists = true
            · rw [if_pos h5]
            · rw [if_neg h5] at hp
              rcases List.mem_cons.mp hp with hp | hp
              · exact absurd hp (by simp)
              · rcases List.mem_append.mp hp with hp | hp
                · exact absurd hp hlock
                · exact absurd hp hback

/-- C3 counterexample: a task whose cache lookup hits an entry with an
existing artifact copies that artifact over the original file while the
cache lock is held (plugin.py line 334 runs inside the `with
self.cache_lock:` block), refuting the claim that no file copy is ever
performed while the lock is held. -/
theorem copy_under_lock_cex :
    (Ev.writeFile Dest.originalFile, true)
      ∈ (processMediaFile cfgDefault envHitPng).2 := by decide

/-- C3 amended: the lock is held only for the map lookup, the cache
insert, and — on the served cache-hit path — the artifact existence
check and the copy of the cached artifact over the original; it is never
held across hashing, a compression-backend invocation, or an artifact
write, and a copy under the lock happens only when the lookup found an
entry whose artifact exists. -/
theorem lock_scope (cfg : Config) (env : FileEnv) :
    (∀ p ∈ (processMediaFile cfg env).2, p.2 = true →
        p.1 = Ev.lookupCache ∨ p.1 = Ev.artifactCheck ∨
        p.1 = Ev.insertCache env.fileHash
          ⟨env.fileHash ++ env.suffix, env.fileHash⟩ ∨
        p.1 = Ev.writeFile Dest.originalFile) ∧
    (∀ b, (Ev.computeHash, b) ∈ (processMediaFile cfg env).2 → b = false) ∧
    (∀ b, (Ev.invokeImageBackend, b) ∈ (processMediaFile cfg env).2 →
        b = false) ∧
    (∀ b, (Ev.invokeFfmpeg, b) ∈ (processMediaFile cfg env).2 → b = false) ∧
    (∀ n b, (Ev.writeFile (Dest.cacheDir n), b) ∈ (processMediaFile cfg env).2 →
        b = false) ∧
    ((Ev.writeFile Dest.originalFile, true) ∈ (processMediaFile cfg env).2 →
        cacheHitServed env) := by
  refine ⟨?_, ?_, ?_, ?_, ?_, ?_⟩
  · intro p hp htrue
    rcases mem_processMediaFile cfg env p hp with h | h | h | h | h | h
    · subst h; simp at htrue
    · obtain ⟨-, h1⟩ := mem_lockSectionTrace env p h
      rcases h1 with h1 | h1 | h1
      · exact Or.inl h1
      · exact Or.inr (Or.inl h1)
      · exact Or.inr (Or.inr (Or.inr h1))
    · obtain ⟨h2, -⟩ := mem_backendResult env p h.1
      rw [h2] at htrue
      simp at htrue
    · exact Or.inr (Or.inr (Or.inl (by rw [h])))
    · subst h; simp at htrue
    · subst h; simp at htrue
  · intro b hb
    rcases mem_processMediaFile cfg env _ hb with h | h | h | h | h | h
    · injection h
    · obtain ⟨-, h1⟩ := mem_lockSectionTrace env _ h; simp at h1
    · exact (mem_backendResult env _ h.1).1
    · exact absurd h (by simp)
    · exact absurd h (by simp)
    · exact absurd h (by simp)
  · intro b hb
    rcases mem_processMediaFile cfg env _ hb with h | h | h | h | h | h
    · exact absurd h (by simp)
    · obtain ⟨-, h1⟩ := mem_lockSectionTrace env _ h; simp at h1
    · exact (mem_backendResult env _ h.1).1
    · exact absurd h (by simp)
    · exact absurd h (by simp)
    · exact absurd h (by simp)
  · intro b hb
    rcases mem_processMediaFile cfg env _ hb with h | h | h | h | h | h
    · exact absurd h (by simp)
    · obtain ⟨-, h1⟩ := mem_lockSectionTrace env _ h; simp at h1
    · exact (mem_backendResult env _ h.1).1
    · exact absurd h (by simp)
    · exact absurd h (by simp)
    · exact absurd h (by simp)
  · intro n b hb
    rcases mem_processMediaFile cfg env _ hb with h | h | h | h | h | h
    · exact absurd h (by simp)
    · obtain ⟨-, h1⟩ := mem_lockSectionTrace env _ h; simp at h1
    · exact (mem_backendResult env _ h.1).1
    · exact absurd h (by simp)
    · exact absurd h (by simp)
    · exact absurd h (by simp)
  · intro hmem
    rcases mem_processMediaFile cfg env _ hmem with h | h | h | h | h | h
    · exact absurd h (by simp)
    · exact writeOriginal_in_lockSection env true h
    · have hfalse := (mem_backendResult env _ h.1).1
      simp at hfalse
    · exact absurd h (by simp)
    · exact absurd h (by simp)
    · exact absurd h (by simp)

/-- C3 amended witness: on the concrete served-hit task the copy under
the lock indeed comes with a hit whose artifact exists. -/
theorem lock_scope_witness : cacheHitServed envHitPng :=
  (lock_scope cfgDefault envHitPng).2.2.2.2.2 (by decide)

/-- C4: when the compression backend fails (returns `None`), nothing is
ever written to the original file — its bytes are untouched; moreover
every write either backend performs lands in the cache directory, and a
copy over the original happens only on the served cache-hit path or on a
task that completed a successful compression (returned `True`). -/
theorem backend_failure_leaves_original (cfg : Config) (env : FileEnv) :
    (backendFailed cfg env →
        ((processMediaFile cfg env).2.map Prod.fst).count
          (Ev.writeFile Dest.originalFile) = 0) ∧
    (∀ p ∈ (compressImage env).2, ∀ d, p.1 = Ev.writeFile d →
        d = Dest.cacheDir (env.fileHash ++ env.suffix)) ∧
    (∀ p ∈ (compressVideo env).2, ∀ d, p.1 = Ev.writeFile d →
        d = Dest.cacheDir (env.fileHash ++ env.suffix)) ∧
    (∀ b, (Ev.writeFile Dest.originalFile, b) ∈ (processMediaFile cfg env).2 →
        cacheHitServed env ∨ (processMediaFile cfg env).1 = .ok true) := by
  refine ⟨?_, ?_, ?_, ?_⟩
  · intro hf
    have hres := processMediaFile_of_backendFailed cfg env hf
    obtain ⟨-, -, hhit, -⟩ := hf
    rw [hres, List.count_eq_zero]
    intro hmem
    rw [List.mem_map] at hmem
    obtain ⟨p, hp, hfst⟩ := hmem
    obtain ⟨pe, pb⟩ := p
    simp only [] at hfst
    subst hfst
    simp only [] at hp
    rcases List.mem_cons.mp hp with hp | hp
    · exact absurd hp (by simp)
    · rcases List.mem_append.mp hp with hp | hp
      · exact hhit (writeOriginal_in_lockSection env pb hp)
      · obtain ⟨-, hshape⟩ := mem_backendResult env _ hp
        rcases hshape with ⟨-, h | h⟩ | ⟨-, -, -, h | h⟩ <;> simp at h
  · intro p hp d hd
    obtain ⟨-, hshape⟩ := mem_compressImage env p hp
    rcases hshape with h | h
    · rw [hd] at h; simp at h
    · rw [hd] at h
      exact Ev.writeFile.inj h
  · intro p hp d hd
    obtain ⟨-, -, hshape⟩ := mem_compressVideo env p hp
    rcases hshape with h | h
    · rw [hd] at h; simp at h
    · rw [hd] at h
      exact Ev.writeFile.inj h
  · intro b hb
    exact writeOriginal_mem_processMediaFile cfg env b hb

/-- C4 witness: the concrete failing-image task writes nothing to the
original file. -/
theorem backend_failure_leaves_original_witness :
    ((processMediaFile cfgDefault envFailImage).2.map Prod.fst).count
      (Ev.writeFile Dest.originalFile) = 0 :=
  (backend_failure_leaves_original cfgDefault envFailImage).1 (by decide)

/-- No extension is both an image and a video extension. -/
theorem image_not_video : ∀ s ∈ imageExtensions, s ∉ videoExtensions := by
  intro s hs
  fin_cases hs <;> decide

/-- C8: with `skip_videos` enabled, every video file's task returns
`False` immediately — counted as skipped, with an empty trace, so no
hash is computed and no cache is consulted — and no task of the run ever
invokes the ffmpeg transcoder; symmetrically for `skip_images` and the
image backend. -/
theorem skip_flags (cfg : Config) (env : FileEnv) :
    (cfg.skipVideos = true → extOf env ∈ videoExtensions →
        processMediaFile cfg env = (.ok false, [])) ∧
    (cfg.skipVideos = true →
        ((processMediaFile cfg env).2.map Prod.fst).count Ev.invokeFfmpeg
          = 0) ∧
    (cfg.skipImages = true → extOf env ∈ imageExtensions →
        processMediaFile cfg env = (.ok false, [])) ∧
    (cfg.skipImages = true →
        ((processMediaFile cfg env).2.map Prod.fst).count
          Ev.invokeImageBackend = 0) := by
  refine ⟨?_, ?_, ?_, ?_⟩
  · intro hv hm
    unfold processMediaFile
    rw [if_neg (fun hc => image_not_video _ hc.1 hm), if_pos ⟨hm, hv⟩]
  · intro hv
    rw [List.count_eq_zero]
    intro hmem
    rw [List.mem_map] at hmem
    obtain ⟨p, hp, hfst⟩ := hmem
    obtain ⟨pe, pb⟩ := p
    simp only [] at hfst
    subst hfst
    rcases mem_processMediaFile cfg env _ hp with h | h | h | h | h | h
    · exact absurd h (by simp)
    · obtain ⟨-, h1⟩ := mem_lockSectionTrace env _ h; simp at h1
    · obtain ⟨hmm, hns⟩ := h
      obtain ⟨-, hshape⟩ := mem_backendResult env _ hmm
      rcases hshape with ⟨-, h' | h'⟩ | ⟨-, hvv, -, h' | h'⟩
      · simp at h'
      · simp at h'
      · exact hns (Or.inr ⟨hvv, hv⟩)
      · simp at h'
    · exact absurd h (by simp)
    · exact absurd h (by simp)
    · exact absurd h (by simp)
  · intro hi him
    unfold processMediaFile
    rw [if_pos ⟨him, hi⟩]
  · intro hi
    rw [List.count_eq_zero]
    intro hmem
    rw [List.mem_map] at hmem
    obtain ⟨p, hp, hfst⟩ := hmem
    obtain ⟨pe, pb⟩ := p
    simp only [] at hfst
    subst hfst
    rcases mem_processMediaFile cfg env _ hp with h | h | h | h | h | h
    · exact absurd h (by simp)
    · obtain ⟨-, h1⟩ := mem_lockSectionTrace env _ h; simp at h1
    · obtain ⟨hmm, hns⟩ := h
      obtain ⟨-, hshape⟩ := mem_backendResult env _ hmm
      rcases hshape with ⟨hii, h' | h'⟩ | ⟨-, -, -, h' | h'⟩
      · exact hns (Or.inl ⟨hii, hi⟩)
      · simp at h'
      · simp at h'
      · simp at h'
    · exact absurd h (by simp)
    · exact absurd h (by simp)
    · exact absurd h (by simp)

/-- C8 witness: with `skip_videos` enabled a concrete `.mp4` task
returns skipped with an empty trace. -/
theorem skip_flags_witness :
    processMediaFile cfgSkipVideos envVideoMp4 = (.ok false, []) :=
  (skip_flags cfgSkipVideos envVideoMp4).1 rfl (by decide)

/-- C10: every cache insert a task performs stores, under the digest key,
an entry whose `original_hash` equals that key and whose
`cached_filename` is the key concatenated with the file's extension;
inserting (which overwrites the key's old entry) and orphan pruning
(which only deletes) preserve this well-formedness for all remaining
entries. -/
theorem cache_entry_invariant :
    (∀ (cfg : Config) (env : FileEnv) (k : String) (e : CacheEntry)
        (b : Bool), (Ev.insertCache k e, b) ∈ (processMediaFile cfg env).2 →
        k = env.fileHash ∧ e.originalHash = k ∧
          e.cachedFilename = k ++ env.suffix) ∧
    (∀ (c : CacheMap) (k : String) (e : CacheEntry) (p : String × CacheEntry),
        p ∈ insertCacheEntry k e c → p ∈ c ∨ p = (k, e)) ∧
    (∀ (f : String → Bool) (c : CacheMap) (p : String × CacheEntry),
        p ∈ (cleanOrphanedCache f c).1 → p ∈ c) ∧
    (∀ (c : CacheMap) (k : String) (e : CacheEntry),
        (∀ p ∈ c, entryInv p.1 p.2) → entryInv k e →
        ∀ p ∈ insertCacheEntry k e c, entryInv p.1 p.2) ∧
    (∀ (f : String → Bool) (c : CacheMap),
        (∀ p ∈ c, entryInv p.1 p.2) →
        ∀ p ∈ (cleanOrphanedCache f c).1, entryInv p.1 p.2) := by
  have hins : ∀ (c : CacheMap) (k : String) (e : CacheEntry)
      (p : String × CacheEntry),
      p ∈ insertCacheEntry k e c → p ∈ c ∨ p = (k, e) := by
    intro c k e p hp
    unfold insertCacheEntry at hp
    rcases List.mem_cons.mp hp with hp | hp
    · exact Or.inr hp
    · exact Or.inl (List.mem_filter.mp hp).1
  have hprune : ∀ (f : String → Bool) (c : CacheMap)
      (p : String × CacheEntry),
      p ∈ (cleanOrphanedCache f c).1 → p ∈ c := by
    intro f c p hp
    have hfil : (cleanOrphanedCache f c).1
        = c.filter (fun q => !((c.filter
            (fun r => !f r.2.cachedFilename)).map Prod.fst).contains q.1) := by
      show ((c.filter (fun r => !f r.2.cachedFilename)).map
          Prod.fst).foldl (fun acc k => eraseKey k acc) c = _
      rw [foldl_eraseKey]
    rw [hfil] at hp
    exact (List.mem_filter.mp hp).1
  refine ⟨?_, hins, hprune, ?_, ?_⟩
  · intro cfg env k e b hb
    rcases mem_processMediaFile cfg env _ hb with h | h | h | h | h | h
    · exact absurd h (by simp)
    · obtain ⟨-, h1⟩ := mem_lockSectionTrace env _ h; simp at h1
    · obtain ⟨-, hshape⟩ := mem_backendResult env _ h.1
      rcases hshape with ⟨-, h' | h'⟩ | ⟨-, -, -, h' | h'⟩ <;> simp at h'
    · have h1 : Ev.insertCache k e = Ev.insertCache env.fileHash
          ⟨env.fileHash ++ env.suffix, env.fileHash⟩ :=
        congrArg Prod.fst h
      obtain ⟨hk, he⟩ := Ev.insertCache.inj h1
      subst hk
      subst he
      exact ⟨rfl, rfl, rfl⟩
    · exact absurd h (by simp)
    · exact absurd h (by simp)
  · intro c k e hc hke p hp
    rcases hins c k e p hp with hp | hp
    · exact hc p hp
    · rw [hp]
      exact hke
  · intro f c hc p hp
    exact hc p (hprune f c p hp)

/-- C10 witness: a concrete successful video task inserts under its
digest an entry carrying that digest and the digest-plus-extension
artifact name. -/
theorem cache_entry_invariant_witness :
    "c0ffee" = envVideoMp4.fileHash ∧
    (CacheEntry.mk "c0ffee.mp4" "c0ffee").originalHash = "c0ffee" ∧
    (CacheEntry.mk "c0ffee.mp4" "c0ffee").cachedFilename
      = "c0ffee" ++ envVideoMp4.suffix :=
  cache_entry_invariant.1 cfgDefault envVideoMp4 "c0ffee"
    ⟨"c0ffee.mp4", "c0ffee"⟩ true (by decide)

/-- C5: loading the persisted record when the cache file is absent, when
its contents are unparseable, and when the parsed value lacks the
expected config field, in each case yields the empty cache; `loadCache`
is a total function, so no such load raises or aborts the run. -/
theorem load_malformed_cache_empty (current : ConfigSnapshot) :
    loadCache current .absent = [] ∧
    loadCache current .unreadable = [] ∧
    loadCache current .oldFormat = [] :=
  ⟨rfl, rfl, rfl⟩

/-- The code's sequentially lowered scale equals the single minimum the
claim describes. -/
theorem resizeScale_eq_claimScale (maxW maxH : Option Int) (w h : Nat) :
    resizeScale maxW maxH w h = claimScale maxW maxH w h := by
  unfold resizeScale scaleStep claimScale
  rcases maxW with _ | W <;> rcases maxH with _ | H
  · simp
  · by_cases hc : (h : Int) > H <;>
      simp [hc, min_assoc, min_comm, min_left_comm]
  · by_cases hc : (w : Int) > W <;>
      simp [hc, min_assoc, min_comm, min_left_comm]
  · by_cases hc1 : (w : Int) > W <;> by_cases hc2 : (h : Int) > H <;>
      simp [hc1, hc2, min_assoc, min_comm, min_left_comm]

/-- The claim's scale factor never exceeds one. -/
theorem claimScale_le_one (maxW maxH : Option Int) (w h : Nat) :
    claimScale maxW maxH w h ≤ 1 :=
  min_le_left _ _

/-- With nonnegative bounds the scale factor is nonnegative. -/
theorem claimScale_nonneg (maxW maxH : Option Int) (w h : Nat)
    (hW : ∀ W, maxW = some W → 0 ≤ W) (hH : ∀ H, maxH = some H → 0 ≤ H) :
    0 ≤ claimScale maxW maxH w h := by
  unfold claimScale
  refine le_min (by norm_num) (le_min ?_ ?_)
  · rcases maxW with _ | W
    · norm_num
    · dsimp only []
      by_cases hc : (w : Int) > W
      · rw [if_pos hc]
        refine div_nonneg ?_ (Nat.cast_nonneg w)
        exact_mod_cast hW W rfl
      · rw [if_neg hc]; norm_num
  · rcases maxH with _ | H
    · norm_num
    · dsimp only []
      by_cases hc : (h : Int) > H
      · rw [if_pos hc]
        refine div_nonneg ?_ (Nat.cast_nonneg h)
        exact_mod_cast hH H rfl
      · rw [if_neg hc]; norm_num

/-- When the width exceeds its bound, the scale factor is at most the
width ratio. -/
theorem claimScale_le_width_ratio (maxW maxH : Option Int) (w h : Nat)
    (W : Int) (hWeq : maxW = some W) (hgt : (w : Int) > W) :
    claimScale maxW maxH w h ≤ (W : ℚ) / (w : ℚ) := by
  subst hWeq
  unfold claimScale
  refine le_trans (min_le_right _ _) (le_trans (min_le_left _ _) ?_)
  dsimp only []
  rw [if_pos hgt]

/-- When the height exceeds its bound, the scale factor is at most the
height ratio. -/
theorem claimScale_le_height_ratio (maxW maxH : Option Int) (w h : Nat)
    (H : Int) (hHeq : maxH = some H) (hgt : (h : Int) > H) :
    claimScale maxW maxH w h ≤ (H : ℚ) / (h : ℚ) := by
  subst hHeq
  unfold claimScale
  refine le_trans (min_le_right _ _) (le_trans (min_le_right _ _) ?_)
  dsimp only []
  rw [if_pos hgt]

/-- Truncating a nonnegative rational below an integer bound stays below
the bound. -/
theorem pyInt_le_of_nonneg_le (q : ℚ) (B : Int) (h0 : 0 ≤ q)
    (hq : q ≤ (B : ℚ)) : ((pyInt q).toNat : Int) ≤ B := by
  unfold pyInt
  rw [if_neg (not_lt.mpr h0)]
  have hfl : Int.floor q ≤ B := by
    have hm := Int.floor_mono hq
    rwa [Int.floor_intCast] at hm
  rw [Int.toNat_of_nonneg (Int.floor_nonneg.mpr h0)]
  exact hfl

/-- C7: the resize block applies the single uniform factor the claim
describes — the minimum of one and the ratios of each exceeded bound —
so neither output dimension exceeds its configured bound, an image
already within bounds is returned unresized, and a 4000×2000 image with
max width 1000 and no height bound becomes exactly 1000×500. -/
theorem resize_bound_spec (maxW maxH : Option Int) (w h : Nat)
    (hw : 0 < w) (hh : 0 < h)
    (hWpos : ∀ W, maxW = some W → 0 ≤ W)
    (hHpos : ∀ H, maxH = some H → 0 ≤ H) :
    resizeScale maxW maxH w h = claimScale maxW maxH w h ∧
    (∀ W, maxW = some W → ((resizeDims maxW maxH w h).1 : Int) ≤ W) ∧
    (∀ H, maxH = some H → ((resizeDims maxW maxH w h).2 : Int) ≤ H) ∧
    ((∀ W, maxW = some W → (w : Int) ≤ W) →
     (∀ H, maxH = some H → (h : Int) ≤ H) →
        resizeDims maxW maxH w h = (w, h)) ∧
    resizeDims (some 1000) none 4000 2000 = (1000, 500) := by
  have heq := resizeScale_eq_claimScale maxW maxH w h
  have hs0 : 0 ≤ claimScale maxW maxH w h :=
    claimScale_nonneg maxW maxH w h hWpos hHpos
  have hs1 := claimScale_le_one maxW maxH w h
  have hwq : (0 : ℚ) < (w : ℚ) := by exact_mod_cast hw
  have hhq : (0 : ℚ) < (h : ℚ) := by exact_mod_cast hh
  refine ⟨heq, ?_, ?_, ?_, ?_⟩
  · intro W hWeq
    unfold resizeDims
    rw [if_pos (Or.inl (by rw [hWeq]; rfl))]
    by_cases hlt : resizeScale maxW maxH w h < 1
    · rw [if_pos hlt]
      show ((pyInt ((w : ℚ) * resizeScale maxW maxH w h)).toNat : Int) ≤ W
      rw [heq]
      refine pyInt_le_of_nonneg_le _ _
        (mul_nonneg (Nat.cast_nonneg w) hs0) ?_
      by_cases hgt : (w : Int) > W
      · have hle := claimScale_le_width_ratio maxW maxH w h W hWeq hgt
        calc (w : ℚ) * claimScale maxW maxH w h
            ≤ (w : ℚ) * ((W : ℚ) / (w : ℚ)) :=
              mul_le_mul_of_nonneg_left hle (le_of_lt hwq)
          _ = (W : ℚ) := by
              rw [mul_comm]
              exact div_mul_cancel₀ _ (ne_of_gt hwq)
      · push_neg at hgt
        calc (w : ℚ) * claimScale maxW maxH w h
            ≤ (w : ℚ) * 1 := mul_le_mul_of_nonneg_left hs1 (le_of_lt hwq)
          _ = (w : ℚ) := mul_one _
          _ ≤ (W : ℚ) := by exact_mod_cast hgt
    · rw [if_neg hlt]
      show ((w : Int)) ≤ W
      by_contra hcon
      push_neg at hcon
      apply hlt
      rw [heq]
      refine lt_of_le_of_lt
        (claimScale_le_width_ratio maxW maxH w h W hWeq hcon) ?_
      rw [div_lt_one hwq]
      exact_mod_cast hcon
  · intro H hHeq
    unfold resizeDims
    rw [if_pos (Or.inr (by rw [hHeq]; rfl))]
    by_cases hlt : resizeScale maxW maxH w h < 1
    · rw [if_pos hlt]
      show ((pyInt ((h : ℚ) * resizeScale maxW maxH w h)).toNat : Int) ≤ H
      rw [heq]
      refine pyInt_le_of_nonneg_le _ _
        (mul_nonneg (Nat.cast_nonneg h) hs0) ?_
      by_cases hgt : (h : Int) > H
      · have hle := claimScale_le_height_ratio maxW maxH w h H hHeq hgt
        calc (h : ℚ) * claimScale maxW maxH w h
            ≤ (h : ℚ) * ((H : ℚ) / (h : ℚ)) :=
              mul_le_mul_of_nonneg_left hle (le_of_lt hhq)
          _ = (H : ℚ) := by
              rw [mul_comm]
              exact div_mul_cancel₀ _ (ne_of_gt hhq)
      · push_neg at hgt
        calc (h : ℚ) * claimScale maxW maxH w h
            ≤ (h : ℚ) * 1 := mul_le_mul_of_nonneg_left hs1 (le_of_lt hhq)
          _ = (h : ℚ) := mul_one _
          _ ≤ (H : ℚ) := by exact_mod_cast hgt
    · rw [if_neg hlt]
      show ((h : Int)) ≤ H
      by_contra hcon
      push_neg at hcon
      apply hlt
      rw [heq]
      refine lt_of_le_of_lt
        (claimScale_le_height_ratio maxW maxH w h H hHeq hcon) ?_
      rw [div_lt_one hhq]
      exact_mod_cast hcon
  · intro hWin hHin
    have hone : claimScale maxW maxH w h = 1 := by
      unfold claimScale
      have h1 : (match maxW with
          | some W => if (w : Int) > W then (W : ℚ) / (w : ℚ) else 1
          | none => (1 : ℚ)) = 1 := by
        rcases maxW with _ | W
        · rfl
        · dsimp only []
          rw [if_neg (not_lt.mpr (hWin W rfl))]
      have h2 : (match maxH with
          | some H => if (h : Int) > H then (H : ℚ) / (h : ℚ) else 1
          | none => (1 : ℚ)) = 1 := by
        rcases maxH with _ | H
        · rfl
        · dsimp only []
          rw [if_neg (not_lt.mpr (hHin H rfl))]
      rw [h1, h2]
      simp
    unfold resizeDims
    by_cases houter : maxW.isSome = true ∨ maxH.isSome = true
    · rw [if_pos houter, if_neg (by rw [heq, hone]; exact lt_irrefl 1)]
    · rw [if_neg houter]
  · norm_num [resizeDims, resizeScale, scaleStep, pyInt, min_def]
    exact ⟨rfl, rfl⟩

/-- C7 witness: with max width 1000 the concrete 4000-wide image is
resized within the bound. -/
theorem resize_bound_spec_witness :
    ((resizeDims (some 1000) none 4000 2000).1 : Int) ≤ 1000 :=
  (resize_bound_spec (some 1000) none 4000 2000 (by norm_num) (by norm_num)
      (fun W hW => by cases hW; decide) (fun H hH => nomatch hH)).2.1
    1000 rfl

end MediaCompressor
